import Mathlib

/-!
Shallow embedding of the mail.tm Telegram bot (bot_mailtm.py).

Strings are modelled as lists of characters. The two regular-expression
substitutions of the source are modelled as structurally recursive scanners
with the exact semantics of Python's re.sub (leftmost, non-overlapping,
single pass), and the search of CODE_REGEX as a first-position scan.
Network calls are modelled by passing their outcomes (Except values) as
parameters; the global dict SESSIONS is modelled as a function from user
ids to optional sessions.
-/

/-- The d class of CODE_REGEX restricted to ASCII: the digits 0-9, which
is exactly what Python's Unicode-aware d matches on characters below
128. Outside ASCII Python's d also matches other Unicode decimal digits,
so the extraction theorems below quantify only over ASCII strings, where
this model is exact. -/
def isDig (c : Char) : Bool := c.isDigit

/-- The s class of the collapse substitution restricted to ASCII: tab,
newline, vertical tab, form feed, carriage return, the four separator
controls 1c-1f, and space — exactly the characters below 128 matched by
Python's Unicode-aware s. Outside ASCII Python's s also matches Unicode
whitespace such as no-break space, so the extraction theorems below
quantify only over ASCII strings, where this model is exact. -/
def isSpace (c : Char) : Bool :=
  c == ' ' || c == '\t' || c == '\n' || c == '\r' || c == '\x0b' || c == '\x0c' ||
  c == '\x1c' || c == '\x1d' || c == '\x1e' || c == '\x1f'

/-- Word character for the word-boundary b of CODE_REGEX restricted to
ASCII: letter, digit or underscore — exactly what Python's Unicode-aware
w matches on characters below 128. Outside ASCII Python's w also matches
Unicode letters and digits (e.g. Cyrillic letters), so the extraction
theorems below quantify only over ASCII strings, where this model is
exact. -/
def isWordChar (c : Char) : Bool := c.isAlphanum || c == '_'

/-- An ASCII character: code point below 128. The character classes
above agree with Python's regex classes exactly on such characters, so
the theorems about CODE_REGEX extraction restrict their strings to this
alphabet. -/
def isAsciiChar (c : Char) : Bool := decide (c.toNat < 128)

/-- Scanner state for the substitution re.sub with pattern
lt [^gt]+ gt and replacement a single space (extract_code, line 83).
The second argument buffers, reversed, the characters read since an
unresolved opening angle bracket; none means we are outside any
candidate tag. On a complete tag (opening bracket, one or more
non-closing characters, closing bracket) a single space is emitted. -/
def stripAux : List Char → Option (List Char) → List Char
  | [], none => []
  | [], some buf => '<' :: buf.reverse
  | c :: rest, none =>
      if c = '<' then stripAux rest (some [])
      else c :: stripAux rest none
  | c :: rest, some buf =>
      if c = '>' then
        if buf = [] then '<' :: '>' :: stripAux rest none
        else ' ' :: stripAux rest none
      else stripAux rest (some (c :: buf))

/-- Models re.sub of the tag pattern with a space (extract_code, line 83). -/
def stripTags (l : List Char) : List Char := stripAux l none

/-- Scanner state for the substitution re.sub
of pattern (digit)(whitespace+)(digit) with the two digits
(extract_code, line 84): out = no pending match, afterD d = a digit d was
read and may begin a match, pend d ws = digit d then nonempty whitespace
ws (reversed) were read and a digit would now complete a match. -/
inductive CState
  | out : CState
  | afterD (d : Char) : CState
  | pend (d : Char) (wsRev : List Char) : CState

/-- One left-to-right pass of non-overlapping replacements of
digit-whitespace-digit by digit-digit, exactly re.sub semantics:
after a replacement, scanning resumes after the second digit. -/
def collapseAux : List Char → CState → List Char
  | [], .out => []
  | [], .afterD d => [d]
  | [], .pend d wsRev => d :: wsRev.reverse
  | c :: rest, .out =>
      if isDig c then collapseAux rest (.afterD c)
      else c :: collapseAux rest .out
  | c :: rest, .afterD d =>
      if isDig c then d :: collapseAux rest (.afterD c)
      else if isSpace c then collapseAux rest (.pend d [c])
      else d :: c :: collapseAux rest .out
  | c :: rest, .pend d wsRev =>
      if isDig c then d :: c :: collapseAux rest .out
      else if isSpace c then collapseAux rest (.pend d (c :: wsRev))
      else (d :: wsRev.reverse) ++ c :: collapseAux rest .out

/-- Models re.sub of digit-whitespace-digit with digit-digit
(extract_code, line 84). -/
def collapse (l : List Char) : List Char := collapseAux l .out

/-- CODE_REGEX (line 22) matches at position i of l: a word boundary,
six decimal digits, a word boundary. The default character given to
getD is a space, a non-word character, so positions at the ends of the
string behave as boundaries. -/
def matchSixAt (l : List Char) (i : Nat) : Bool :=
  (i == 0 || !isWordChar (l.getD (i - 1) ' ')) &&
  ((l.drop i).take 6).length == 6 &&
  ((l.drop i).take 6).all isDig &&
  !isWordChar (l.getD (i + 6) ' ')

/-- CODE_REGEX.search: the leftmost match position wins. -/
def findSix (l : List Char) : Option (List Char) :=
  ((List.range l.length).find? (matchSixAt l)).map (fun i => (l.drop i).take 6)

/-- extract_code (lines 80-86): empty input short-circuits to no code;
otherwise strip tag markup, collapse digit gaps, search CODE_REGEX. -/
def extract_code (s : List Char) : Option (List Char) :=
  if s.isEmpty then none
  else findSix (collapse (stripTags s))

/-- The claim wording of a code occurrence: a run of exactly six decimal
digits at position i bounded on both sides by a non-digit character or a
string boundary. This is the specification-side notion, to be compared
with matchSixAt of the source regex. -/
def specSixRunAt (l : List Char) (i : Nat) : Bool :=
  (i == 0 || !isDig (l.getD (i - 1) ' ')) &&
  ((l.drop i).take 6).length == 6 &&
  ((l.drop i).take 6).all isDig &&
  !isDig (l.getD (i + 6) ' ')

/-- Some position of l starts n consecutive decimal digits. -/
def hasRunGeB (n : Nat) (l : List Char) : Bool :=
  (List.range (l.length + 1)).any
    (fun i => decide (i + n ≤ l.length) && ((l.drop i).take n).all isDig)

/-- Lower-casing as used by detect_service (line 74) and keyword matching:
ASCII letters and the Cyrillic letters appearing in SERVICE_RULES. -/
def toLow (c : Char) : Char :=
  if 'A' ≤ c ∧ c ≤ 'Z' then Char.ofNat (c.toNat + 32)
  else if 'А' ≤ c ∧ c ≤ 'Я' then Char.ofNat (c.toNat + 32)
  else if c = 'Ё' then 'ё'
  else c

/-- Substring test, the Python operator in on strings. -/
def substrB (pat l : List Char) : Bool :=
  (List.range (l.length + 1)).any (fun i => (l.drop i).take pat.length == pat)

/-- SERVICE_RULES (lines 24-27), in dict insertion order. -/
def SERVICE_RULES : List (List Char × List (List Char)) :=
  [("AdGuard VPN".data, ["adguard".data]),
   ("Юбуст".data, ["youbust".data, "юбуст".data, "ubust".data])]

/-- The sentinel label returned when no rule matches (line 78). -/
def unknownService : List Char := "Неизвестный сервис".data

/-- A rule fires on a text when one of its keywords is a substring of the
lower-cased text (line 76). -/
def ruleHit (r : List Char × List (List Char)) (text : List Char) : Bool :=
  r.2.any (fun k => substrB k (text.map toLow))

/-- detect_service (lines 73-78): first rule in declaration order with a
keyword in the lower-cased text; sentinel otherwise. -/
def detect_service (text : List Char) : List Char :=
  match SERVICE_RULES.find? (fun r => ruleHit r text) with
  | some r => r.1
  | none => unknownService

/-- Session dataclass (lines 30-35). -/
structure Session where
  address : List Char
  password : List Char
  token : List Char
  account_id : List Char
deriving DecidableEq

/-- The SESSIONS dict (line 37), modelled as a map from user ids. -/
def SessionStore : Type := Nat → Option Session

/-- Dict assignment SESSIONS key equals value (line 130). -/
def putSession (m : SessionStore) (u : Nat) (s : Session) : SessionStore :=
  fun v => if v = u then some s else m v

/-- Dict lookup SESSIONS.get (lines 138, 149). -/
def getSession (m : SessionStore) (u : Nat) : Option Session := m u

/-- Error outcomes of the provider calls: raise_for_status and JSON
failures (line 50), plus the index error of picking the first domain of
an empty list (line 122). -/
inductive ApiError
  | providerUnavailable : ApiError
  | providerRejected : ApiError
  | authFailed : ApiError
  | notFound : ApiError
  | indexError : ApiError
deriving DecidableEq

/-- Outcomes of the four provider calls made by the new-mailbox branch of
handle_buttons (lines 121-130). -/
structure NewMailboxCalls where
  domains : Except ApiError (List (List Char))
  createAccount : Except ApiError Unit
  tokenResp : Except ApiError (List Char)
  meId : Except ApiError (List Char)

/-- The new-mailbox branch (lines 121-130): fetch domains, pick the
first, create the account, obtain the token, fetch the profile, then and
only then assign the session. An exception in any step propagates before
the assignment, so the store is returned unchanged together with the
error. localPart and pw stand for the generated random values. -/
def handle_new (calls : NewMailboxCalls) (localPart pw : List Char)
    (store : SessionStore) (u : Nat) :
    SessionStore × Except ApiError (List Char) :=
  match calls.domains with
  | .error e => (store, .error e)
  | .ok doms =>
    match doms with
    | [] => (store, .error .indexError)
    | d :: _ =>
      let address := "tg".data ++ localPart ++ "@".data ++ d
      match calls.createAccount with
      | .error e => (store, .error e)
      | .ok _ =>
        match calls.tokenResp with
        | .error e => (store, .error e)
        | .ok tok =>
          match calls.meId with
          | .error e => (store, .error e)
          | .ok mid =>
            (putSession store u ⟨address, pw, tok, mid⟩, .ok address)

/-- The html field of a message detail: absent, a string, or a list of
fragments (normalize_body, lines 88-93). -/
inductive HtmlField
  | absent : HtmlField
  | str (s : List Char) : HtmlField
  | frags (ss : List (List Char)) : HtmlField
deriving DecidableEq

/-- The join of the html field: fragments are joined with a space, an
absent field contributes nothing (lines 91-93). -/
def joinHtml : HtmlField → List Char
  | .absent => []
  | .str s => s
  | .frags ss => List.intercalate [' '] ss

/-- normalize_body (lines 88-93): text (empty when absent) concatenated
with the joined html, with no separator between them. -/
def normalize_body (text? : Option (List Char)) (html : HtmlField) : List Char :=
  text?.getD [] ++ joinHtml html

/-- A message summary from the list endpoint: only the id is used. -/
structure MsgSummary where
  id : List Char
deriving DecidableEq

/-- A fetched message detail (fields read at lines 162-166). -/
structure MessageDetail where
  subject : Option (List Char)
  text : Option (List Char)
  html : HtmlField
  createdAt : List Char
deriving DecidableEq

/-- Models datetime.fromisoformat on createdAt with Z removed followed by
strftime of hour colon minute (line 166): on a well-formed ISO-8601
string these are the five characters at offset 11. -/
def fmtTime (s : List Char) : List Char :=
  ((s.filter (fun c => c ≠ 'Z')).drop 11).take 5

/-- The per-message tuple assembled by the fetch-codes loop
(lines 162-174). -/
structure ResultTuple where
  service : List Char
  subject : List Char
  time : List Char
  code : Option (List Char)
deriving DecidableEq

/-- Assembly of one tuple from a fetched detail (lines 162-168). -/
def mkTuple (full : MessageDetail) : ResultTuple :=
  let subject := full.subject.getD "Без темы".data
  let body := normalize_body full.text full.html
  { service := detect_service (subject ++ body)
    subject := subject
    time := fmtTime full.createdAt
    code := extract_code body }

/-- Outcome of the fetch-codes branch: the two expected empty states, a
propagated provider error, or the assembled tuples. -/
inductive FetchResult
  | noSession : FetchResult
  | noMessages : FetchResult
  | failure (e : ApiError) : FetchResult
  | results (rs : List ResultTuple) : FetchResult
deriving DecidableEq

/-- The fetch-codes loop over the selected messages (lines 160-174): each
detail is fetched in list order; an exception aborts the remainder. -/
def processMsgs (detail : List Char → Except ApiError MessageDetail) :
    List MsgSummary → Except ApiError (List ResultTuple)
  | [] => .ok []
  | m :: ms =>
    match detail m.id with
    | .error e => .error e
    | .ok full =>
      match processMsgs detail ms with
      | .error e => .error e
      | .ok rs => .ok (mkTuple full :: rs)

/-- The code branch of handle_buttons (lines 148-180): no session short-
circuits, an empty list short-circuits, otherwise the first five messages
are processed in provider order. listMessages and getMessage stand for
the outcomes of the two provider calls, keyed by the token (and id) they
are invoked with. -/
def fetch_codes (store : SessionStore) (u : Nat)
    (listMessages : List Char → Except ApiError (List MsgSummary))
    (getMessage : List Char → List Char → Except ApiError MessageDetail) :
    FetchResult :=
  match getSession store u with
  | none => .noSession
  | some s =>
    match listMessages s.token with
    | .error e => .failure e
    | .ok msgs =>
      if msgs.isEmpty then .noMessages
      else
        match processMsgs (getMessage s.token) (msgs.take 5) with
        | .error e => .failure e
        | .ok rs => .results rs

/-! Concrete fixtures used to instantiate the theorems below. -/

/-- A store with no sessions. -/
def emptyStore : SessionStore := fun _ => none

/-- A sample session. -/
def sess0 : Session := ⟨"tgab@x.y".data, "pw".data, "tok".data, "acc".data⟩

/-- A store holding sess0 for user 1. -/
def store1 : SessionStore := putSession emptyStore 1 sess0

/-- A sample message detail. -/
def detail0 : MessageDetail :=
  ⟨some "Hi".data, some "code 123456".data, .absent, "2024-01-02T10:35:57Z".data⟩

/-- Two message summaries. -/
def msgs2 : List MsgSummary := [⟨"m1".data⟩, ⟨"m2".data⟩]

/-- A listing outcome returning msgs2. -/
def lmOk2 : List Char → Except ApiError (List MsgSummary) := fun _ => .ok msgs2

/-- A listing outcome returning an empty inbox. -/
def lmEmpty : List Char → Except ApiError (List MsgSummary) := fun _ => .ok []

/-- Detail outcomes where the first message has vanished. -/
def gmFail1 : List Char → List Char → Except ApiError MessageDetail :=
  fun _ mid => if mid = "m1".data then .error .notFound else .ok detail0

/-- Detail outcomes where the second message has vanished. -/
def gmFail2 : List Char → List Char → Except ApiError MessageDetail :=
  fun _ mid => if mid = "m2".data then .error .notFound else .ok detail0

/-- Detail outcomes where every fetch succeeds. -/
def gmOk : List Char → List Char → Except ApiError MessageDetail := fun _ _ => .ok detail0

/-- Provider outcomes whose very first call fails. -/
def failCalls : NewMailboxCalls :=
  ⟨.error .providerUnavailable, .ok (), .ok "t".data, .ok "id".data⟩

/-! Theorems. -/

/-- Claim C7: after put(u, s), get(u) returns s; after put(u, s1) followed
by put(u, s2), get(u) returns s2 — the newer session wholly replaces the
older one for the same identity. -/
theorem claim_C7_store_put_get (m : SessionStore) (u : Nat) (s s1 s2 : Session) :
    getSession (putSession m u s) u = some s ∧
    getSession (putSession (putSession m u s1) u s2) u = some s2 := by
  constructor <;> simp [getSession, putSession]

/-- Claim C4: the create-mailbox operation is all-or-nothing with respect
to the session store: whenever it ends in an error — a failure of any of
fetch domains, create account, obtain token, fetch profile, or an empty
domain list — the store is returned exactly as it was, with no partial or
new session written. -/
theorem claim_C4_create_all_or_nothing (calls : NewMailboxCalls)
    (lp pw : List Char) (store : SessionStore) (u : Nat) (e : ApiError)
    (h : (handle_new calls lp pw store u).2 = .error e) :
    (handle_new calls lp pw store u).1 = store := by
  rcases calls with ⟨d, ca, tk, mi⟩
  cases d with
  | error e' => rfl
  | ok doms =>
    cases doms with
    | nil => rfl
    | cons d0 ds =>
      cases ca with
      | error e' => rfl
      | ok uu =>
        cases tk with
        | error e' => rfl
        | ok tok =>
          cases mi with
          | error e' => rfl
          | ok mid => simp [handle_new] at h

/-- Witness for claim C4 at a concrete failing call sequence. -/
theorem claim_C4_witness : (handle_new failCalls [] [] emptyStore 1).1 = emptyStore :=
  claim_C4_create_all_or_nothing failCalls [] [] emptyStore 1 .providerUnavailable rfl

/-- Claim C8: with no stored session, fetch codes returns the no-session
state for every possible outcome of the network calls (none is made);
with a session and an empty message list it returns the no-messages
state; and both states are distinct from every failure and from every
result list. -/
theorem claim_C8_empty_states (store : SessionStore) (u : Nat) :
    (getSession store u = none →
      ∀ lm gm, fetch_codes store u lm gm = .noSession) ∧
    (∀ s lm gm, getSession store u = some s → lm s.token = .ok [] →
      fetch_codes store u lm gm = .noMessages) ∧
    (∀ e rs, FetchResult.noSession ≠ .failure e ∧
      FetchResult.noSession ≠ .results rs ∧
      FetchResult.noMessages ≠ .failure e ∧
      FetchResult.noMessages ≠ .results rs ∧
      FetchResult.noSession ≠ .noMessages) := by
  refine ⟨?_, ?_, ?_⟩
  · intro h lm gm
    unfold fetch_codes
    rw [h]
  · intro s lm gm hs hl
    simp only [fetch_codes, hs, hl]
    rfl
  · intro e rs
    refine ⟨?_, ?_, ?_, ?_, ?_⟩ <;> intro h <;> cases h

/-- Witness for claim C8: both empty states at concrete inputs. -/
theorem claim_C8_witness :
    fetch_codes emptyStore 1 lmOk2 gmOk = .noSession ∧
    fetch_codes store1 1 lmEmpty gmOk = .noMessages :=
  ⟨(claim_C8_empty_states emptyStore 1).1 rfl lmOk2 gmOk,
   (claim_C8_empty_states store1 1).2.1 sess0 lmEmpty gmOk (by decide) rfl⟩

/-- Claim C6: the classifier returns the label of the first rule in
declaration order having a matching keyword — when an earlier and a later
rule both fire, the earlier label wins — and the unknown-service sentinel
when no rule fires. -/
theorem claim_C6_classifier (text : List Char) :
    (∀ i r, SERVICE_RULES.get? i = some r → ruleHit r text = true →
      (∀ j r', j < i → SERVICE_RULES.get? j = some r' → ruleHit r' text = false) →
      detect_service text = r.1) ∧
    ((∀ r, r ∈ SERVICE_RULES → ruleHit r text = false) →
      detect_service text = unknownService) := by
  constructor
  · intro i r hget hhit hmin
    match i with
    | 0 =>
      have hr : r = ("AdGuard VPN".data, ["adguard".data]) := by
        simpa [SERVICE_RULES] using hget.symm
      subst hr
      have hf : SERVICE_RULES.find? (fun x => ruleHit x text) =
          some ("AdGuard VPN".data, ["adguard".data]) := by
        rw [show SERVICE_RULES = ("AdGuard VPN".data, ["adguard".data]) ::
          [("Юбуст".data, ["youbust".data, "юбуст".data, "ubust".data])] from rfl]
        exact List.find?_cons_of_pos _ hhit
      simp [detect_service, hf]
    | 1 =>
      have hr : r = ("Юбуст".data, ["youbust".data, "юбуст".data, "ubust".data]) := by
        simpa [SERVICE_RULES] using hget.symm
      subst hr
      have h0 : ruleHit ("AdGuard VPN".data, ["adguard".data]) text = false :=
        hmin 0 _ (by omega) rfl
      have hf : SERVICE_RULES.find? (fun x => ruleHit x text) =
          some ("Юбуст".data, ["youbust".data, "юбуст".data, "ubust".data]) := by
        rw [show SERVICE_RULES = ("AdGuard VPN".data, ["adguard".data]) ::
          [("Юбуст".data, ["youbust".data, "юбуст".data, "ubust".data])] from rfl]
        rw [List.find?_cons_of_neg _ (by simp [h0])]
        exact List.find?_cons_of_pos _ hhit
      simp [detect_service, hf]
    | (n + 2) => simp [SERVICE_RULES] at hget
  · intro hall
    have h0 := hall ("AdGuard VPN".data, ["adguard".data]) (by simp [SERVICE_RULES])
    have h1 := hall ("Юбуст".data, ["youbust".data, "юбуст".data, "ubust".data])
      (by simp [SERVICE_RULES])
    have hf : SERVICE_RULES.find? (fun x => ruleHit x text) = none := by
      rw [List.find?_eq_none]
      intro x hx
      simp [SERVICE_RULES] at hx
      rcases hx with hx | hx <;> subst hx <;> simp [h0, h1]
    simp [detect_service, hf]

/-- Witness for claim C6 at the spec scenario subject. -/
theorem claim_C6_witness :
    detect_service "Welcome to AdGuard VPN".data = "AdGuard VPN".data := by
  have h := (claim_C6_classifier "Welcome to AdGuard VPN".data).1 0
    ("AdGuard VPN".data, ["adguard".data]) rfl (by decide)
    (fun j r' hj _ => absurd hj (by omega))
  exact h

/-- Processing a batch whose prefix succeeds and then hits an error
returns that error: the loop propagates the first exception. -/
theorem processMsgs_error (detail : List Char → Except ApiError MessageDetail)
    (pre : List MsgSummary) (m : MsgSummary) (post : List MsgSummary) (e : ApiError)
    (hpre : ∀ m' ∈ pre, (detail m'.id).isOk = true)
    (hm : detail m.id = .error e) :
    processMsgs detail (pre ++ m :: post) = .error e := by
  induction pre with
  | nil => simp [processMsgs, hm]
  | cons m' pre' ih =>
    have h' := hpre m' (by simp)
    cases hd : detail m'.id with
    | error e' => rw [hd] at h'; simp [Except.isOk, Except.toBool] at h'
    | ok full =>
      have ihh := ih (fun x hx => hpre x (by simp [hx]))
      simp [processMsgs, hd, ihh]

/-- Processing a batch whose fetches all succeed yields one tuple per
message, in list order. -/
theorem processMsgs_ok (detail : List Char → Except ApiError MessageDetail)
    (f : MsgSummary → MessageDetail) (ms : List MsgSummary)
    (h : ∀ m ∈ ms, detail m.id = .ok (f m)) :
    processMsgs detail ms = .ok (ms.map (fun m => mkTuple (f m))) := by
  induction ms with
  | nil => rfl
  | cons m ms' ih =>
    have hm := h m (by simp)
    have ih' := ih (fun x hx => h x (by simp [hx]))
    simp [processMsgs, hm, ih']

/-- Claim C2 refuted at a concrete input: with two listed messages, the
first of which vanished (its detail fetch fails with NotFound) while the
second is still fetchable, the whole fetch-codes operation returns the
failure — the second message is never processed and no results are
produced. -/
theorem claim_C2_counterexample :
    gmFail1 sess0.token "m2".data = .ok detail0 ∧
    fetch_codes store1 1 lmOk2 gmFail1 = .failure .notFound := by
  constructor
  · rfl
  · rfl

/-- Claim C2 (amended): a detail-fetch failure for one message aborts the
whole batch — if every message before some point of the selected five is
fetched successfully and the fetch at that point fails, fetch codes
returns that failure and produces no result tuples. -/
theorem claim_C2_amended (store : SessionStore) (u : Nat) (s : Session)
    (lm : List Char → Except ApiError (List MsgSummary))
    (gm : List Char → List Char → Except ApiError MessageDetail)
    (msgs : List MsgSummary) (pre post : List MsgSummary) (m : MsgSummary) (e : ApiError)
    (hs : getSession store u = some s)
    (hl : lm s.token = .ok msgs)
    (hne : msgs.isEmpty = false)
    (hsplit : msgs.take 5 = pre ++ m :: post)
    (hpre : ∀ m' ∈ pre, (gm s.token m'.id).isOk = true)
    (hm : gm s.token m.id = .error e) :
    fetch_codes store u lm gm = .failure e := by
  have hp := processMsgs_error (gm s.token) pre m post e hpre hm
  simp only [fetch_codes, hs, hl, hne, hsplit, hp]
  rfl

/-- Witness for the amended claim C2: the first fetch succeeds, the
second fails, the operation returns the failure. -/
theorem claim_C2_witness :
    fetch_codes store1 1 lmOk2 gmFail2 = .failure .notFound :=
  claim_C2_amended store1 1 sess0 lmOk2 gmFail2 msgs2 [⟨"m1".data⟩] [] ⟨"m2".data⟩
    .notFound (by decide) rfl rfl rfl (by decide) rfl

/-- Claim C9: when the session exists, the listing succeeds with a
nonempty list, and every selected detail fetch succeeds, the output is
one result tuple per message for exactly the first five messages of the
provider list (all of them when fewer), in the provider order. -/
theorem claim_C9_order (store : SessionStore) (u : Nat) (s : Session)
    (lm : List Char → Except ApiError (List MsgSummary))
    (gm : List Char → List Char → Except ApiError MessageDetail)
    (msgs : List MsgSummary) (f : MsgSummary → MessageDetail)
    (hs : getSession store u = some s)
    (hl : lm s.token = .ok msgs)
    (hne : msgs.isEmpty = false)
    (hok : ∀ m ∈ msgs.take 5, gm s.token m.id = .ok (f m)) :
    fetch_codes store u lm gm = .results ((msgs.take 5).map (fun m => mkTuple (f m))) ∧
    ((msgs.take 5).map (fun m => mkTuple (f m))).length = min 5 msgs.length := by
  constructor
  · have hp := processMsgs_ok (gm s.token) f (msgs.take 5) hok
    simp only [fetch_codes, hs, hl, hne, hp]
    rfl
  · simp [List.length_take]

/-- Witness for claim C9 with two messages, both fetchable. -/
theorem claim_C9_witness :
    fetch_codes store1 1 lmOk2 gmOk =
      .results ((msgs2.take 5).map (fun m => mkTuple ((fun _ : MsgSummary => detail0) m))) ∧
    ((msgs2.take 5).map (fun m => mkTuple ((fun _ : MsgSummary => detail0) m))).length =
      min 5 msgs2.length :=
  claim_C9_order store1 1 sess0 lmOk2 gmOk msgs2 (fun _ => detail0)
    (by decide) rfl rfl
    (by intro m hm; simp [msgs2] at hm; rcases hm with h | h <;> subst h <;> rfl)

/-- A whitespace character is not a digit. -/
theorem isSpace_not_isDig (c : Char) (h : isSpace c = true) : isDig c = false := by
  simp only [isSpace, Bool.or_eq_true, beq_iff_eq] at h
  rcases h with ((((((((h | h) | h) | h) | h) | h) | h) | h) | h) | h <;>
    subst h <;> decide

/-- Scanning whitespace in the pending state and then a digit completes
the replacement: both digits are emitted and scanning resumes after the
second digit in the out state. -/
theorem collapseAux_pend_digit (d₂ : Char) (rest : List Char) (h₂ : isDig d₂ = true) :
    ∀ (ws : List Char) (d₁ : Char) (wsRev : List Char), ws.all isSpace = true →
    collapseAux (ws ++ d₂ :: rest) (.pend d₁ wsRev) =
      d₁ :: d₂ :: collapseAux rest .out := by
  intro ws
  induction ws with
  | nil => intro d₁ wsRev _; simp [collapseAux, h₂]
  | cons c ws' ih =>
    intro d₁ wsRev hall
    rw [List.all_cons, Bool.and_eq_true] at hall
    have hc : isSpace c = true := hall.1
    have hcd : isDig c = false := isSpace_not_isDig c hc
    simp only [List.cons_append, collapseAux, hcd, hc]
    simp only [Bool.false_eq_true, if_false, if_true]
    exact ih d₁ (c :: wsRev) hall.2

/-- Claim C3 refuted at the concrete input of the claim: the collapse is
a single pass, so alternating single digits do not become one contiguous
run — no run of six digits exists in the collapsed string and extraction
finds no code. -/
theorem claim_C3_counterexample :
    collapse "1 2 3 4 5 6".data = "12 34 56".data ∧
    hasRunGeB 6 (collapse "1 2 3 4 5 6".data) = false ∧
    extract_code "1 2 3 4 5 6".data = none := by
  refine ⟨rfl, by decide, by decide⟩

/-- Claim C3 (amended): the collapse of digit-whitespace-digit into
digit-digit is a single left-to-right pass of non-overlapping matches:
each match consumes both digits, the two digits are emitted adjacently,
and scanning resumes after the second digit — so a gap between multi-digit
groups is closed, but in an alternating pattern of single digits only
every other gap is closed. -/
theorem claim_C3_amended (d₁ d₂ : Char) (ws rest : List Char)
    (h₁ : isDig d₁ = true) (h₂ : isDig d₂ = true)
    (hws : ws ≠ []) (hall : ws.all isSpace = true) :
    collapse (d₁ :: ws ++ d₂ :: rest) = d₁ :: d₂ :: collapse rest := by
  unfold collapse
  cases ws with
  | nil => exact absurd rfl hws
  | cons c ws' =>
    rw [List.all_cons, Bool.and_eq_true] at hall
    have hc : isSpace c = true := hall.1
    have hcd : isDig c = false := isSpace_not_isDig c hc
    simp only [List.cons_append, collapseAux, h₁, hcd, hc]
    simp only [Bool.false_eq_true, if_false, if_true]
    exact collapseAux_pend_digit d₂ rest h₂ ws' d₁ [c] hall.2

/-- Witness for the amended claim C3 at a concrete gap. -/
theorem claim_C3_witness :
    collapse ('1' :: [' '] ++ '2' :: "3 4".data) = '1' :: '2' :: collapse "3 4".data :=
  claim_C3_amended '1' '2' [' '] "3 4".data (by decide) (by decide) (by decide) (by decide)

/-- find? over a range block returns the least satisfying index. -/
theorem find?_range'_eq_some (p : Nat → Bool) :
    ∀ (n s i : Nat), s ≤ i → i < s + n → p i = true →
    (∀ j, s ≤ j → j < i → p j = false) →
    (List.range' s n).find? p = some i := by
  intro n
  induction n with
  | zero => intro s i h1 h2 _ _; omega
  | succ m ih =>
    intro s i h1 h2 hp hmin
    rw [List.range'_succ]
    by_cases hsi : s = i
    · subst hsi
      exact List.find?_cons_of_pos _ hp
    · have hps : p s = false := hmin s le_rfl (by omega)
      rw [List.find?_cons_of_neg _ (by simp [hps])]
      exact ih (s + 1) i (by omega) (by omega) hp (fun j hj1 hj2 => hmin j (by omega) hj2)

/-- find? over an initial range returns the least satisfying index. -/
theorem find?_range_eq_some (p : Nat → Bool) (n i : Nat) (hi : i < n) (hp : p i = true)
    (hmin : ∀ j, j < i → p j = false) :
    (List.range n).find? p = some i := by
  rw [List.range_eq_range' n]
  exact find?_range'_eq_some p n 0 i (Nat.zero_le i) (by omega) hp (fun j _ hj => hmin j hj)

/-- A regex match position leaves room for six characters. -/
theorem matchSixAt_le (l : List Char) (i : Nat) (h : matchSixAt l i = true) :
    i + 6 ≤ l.length := by
  simp only [matchSixAt, Bool.and_eq_true, beq_iff_eq] at h
  obtain ⟨⟨⟨-, hlen⟩, -⟩, -⟩ := h
  rw [List.length_take, List.length_drop] at hlen
  omega

/-- Decimal digits are word characters. -/
theorem isDig_isWordChar (c : Char) (h : isDig c = true) : isWordChar c = true := by
  simp only [isDig] at h
  simp [isWordChar, Char.isAlphanum, h]

/-- A regex match of CODE_REGEX is in particular a six-digit run bounded
by non-digits or the string ends: word boundaries are stricter than
non-digit boundaries. -/
theorem matchSixAt_imp_spec (l : List Char) (i : Nat) (h : matchSixAt l i = true) :
    specSixRunAt l i = true := by
  simp only [matchSixAt, specSixRunAt, Bool.and_eq_true, Bool.or_eq_true,
    Bool.not_eq_true', beq_iff_eq] at h ⊢
  obtain ⟨⟨⟨hl, hlen⟩, hall⟩, hr⟩ := h
  refine ⟨⟨⟨?_, hlen⟩, hall⟩, ?_⟩
  · rcases hl with hl | hl
    · exact Or.inl hl
    · refine Or.inr ?_
      cases hd : isDig (l.getD (i - 1) ' ') with
      | false => rfl
      | true => rw [isDig_isWordChar _ hd] at hl; simp at hl
  · cases hd : isDig (l.getD (i + 6) ' ') with
    | false => rfl
    | true => rw [isDig_isWordChar _ hd] at hr; simp at hr

/-- Claim C1 refuted at a concrete input: the string of letter, six
digits, letter is fully normalized (tag stripping and gap collapsing
leave it unchanged) and contains a run of exactly six digits bounded on
both sides by non-digit characters, yet extraction returns no code: the
regex demands word boundaries and letters are word characters. -/
theorem claim_C1_counterexample :
    stripTags "a123456b".data = "a123456b".data ∧
    collapse "a123456b".data = "a123456b".data ∧
    specSixRunAt "a123456b".data 1 = true ∧
    extract_code "a123456b".data = none := by
  refine ⟨rfl, rfl, by decide, by decide⟩

/-- Claim C1 (amended): for every normalized ASCII string — one whose
characters all lie below code point 128, where the modelled character
classes coincide with the regex classes, and that tag stripping and gap
collapsing leave unchanged — containing a run of exactly six decimal
digits bounded on both sides by a non-word character (not a letter,
digit or underscore) or a string boundary, extraction returns exactly
the first such run. The ASCII restriction keeps the statement within the
alphabet on which isWordChar, isSpace and isDig agree with Python's
Unicode-aware w, s and d: outside it a Cyrillic letter is a word
character and a no-break space is whitespace to the program but not to
the model. -/
theorem claim_C1_amended (s : List Char) (hascii : s.all isAsciiChar = true)
    (h1 : stripTags s = s) (h2 : collapse s = s) (i : Nat)
    (hm : matchSixAt s i = true)
    (hmin : ∀ j, j < i → matchSixAt s j = false) :
    extract_code s = some ((s.drop i).take 6) := by
  have hlen : i + 6 ≤ s.length := matchSixAt_le s i hm
  have hne : s.isEmpty = false := by
    cases s with
    | nil => simp at hlen
    | cons c cs => rfl
  unfold extract_code
  rw [h1, h2, hne]
  simp only [Bool.false_eq_true, if_false]
  unfold findSix
  rw [find?_range_eq_some (matchSixAt s) s.length i (by omega) hm hmin]
  rfl

/-- Witness for the amended claim C1 at a concrete input whose six-digit
run sits between spaces. -/
theorem claim_C1_witness : extract_code "ab 123456 cd".data = some "123456".data := by
  have h := claim_C1_amended "ab 123456 cd".data (by decide) rfl rfl 3 (by decide) (by decide)
  rw [h]
  rfl

/-- Claim C5: on a normalized ASCII string — one whose characters all
lie below code point 128, where the modelled character classes coincide
with the regex classes, and that tag stripping and gap collapsing leave
unchanged — that contains a run of seven or more digits and no run of
exactly six digits bounded by non-digits or boundaries anywhere,
extraction returns no code: the regex word boundaries exclude every
six-digit window of a longer run. Extraction is a total function, so it
never throws on absence. The ASCII restriction keeps the statement
within the alphabet on which isWordChar, isSpace and isDig agree with
Python's Unicode-aware w, s and d: outside it the program collapses
no-break-space gaps and matches non-ASCII decimal digits that the model
does not, and a normalized string may contain neither. -/
theorem claim_C5_no_match (s : List Char) (hascii : s.all isAsciiChar = true)
    (h1 : stripTags s = s) (h2 : collapse s = s)
    (h7 : hasRunGeB 7 s = true)
    (h6 : ∀ i, i < s.length → specSixRunAt s i = false) :
    extract_code s = none := by
  cases hs : s.isEmpty with
  | true => unfold extract_code; rw [hs]; rfl
  | false =>
    unfold extract_code
    rw [h1, h2, hs]
    simp only [Bool.false_eq_true, if_false]
    unfold findSix
    rw [show (List.range s.length).find? (matchSixAt s) = none from ?_]
    · rfl
    · rw [List.find?_eq_none]
      intro i hi hmi
      have hspec := matchSixAt_imp_spec s i hmi
      rw [h6 i (List.mem_range.mp hi)] at hspec
      simp at hspec

/-- Witness for claim C5 at a concrete seven-digit run. -/
theorem claim_C5_witness : extract_code "x1234567y".data = none :=
  claim_C5_no_match "x1234567y".data (by decide) rfl rfl (by decide) (by decide)

/-- In the pending state the pending digit is always the next character
emitted. -/
theorem collapseAux_pend_head (B : List Char) :
    ∀ (d : Char) (ws : List Char), ∃ C, collapseAux B (.pend d ws) = d :: C := by
  induction B with
  | nil => intro d ws; exact ⟨ws.reverse, rfl⟩
  | cons c B' ih =>
    intro d ws
    cases hd : isDig c with
    | true => exact ⟨c :: collapseAux B' .out, by simp [collapseAux, hd]⟩
    | false =>
      cases hs : isSpace c with
      | true =>
        obtain ⟨C, hC⟩ := ih d (c :: ws)
        exact ⟨C, by simp [collapseAux, hd, hs, hC]⟩
      | false =>
        exact ⟨ws.reverse ++ c :: collapseAux B' .out, by simp [collapseAux, hd, hs]⟩

/-- In the after-digit state the remembered digit is always the next
character emitted. -/
theorem collapseAux_afterD_head (B : List Char) (d : Char) :
    ∃ C, collapseAux B (.afterD d) = d :: C := by
  cases B with
  | nil => exact ⟨[], rfl⟩
  | cons c B' =>
    cases hd : isDig c with
    | true => exact ⟨collapseAux B' (.afterD c), by simp [collapseAux, hd]⟩
    | false =>
      cases hs : isSpace c with
      | true =>
        obtain ⟨C, hC⟩ := collapseAux_pend_head B' d [c]
        exact ⟨C, by simp [collapseAux, hd, hs, hC]⟩
      | false => exact ⟨c :: collapseAux B' .out, by simp [collapseAux, hd, hs]⟩

/-- A block of digits entering the scanner in the after-digit state is
emitted contiguously right after the remembered digit. -/
theorem collapseAux_digits_afterD (J : List Char) :
    ∀ (B : List Char) (d : Char), J.all isDig = true →
    ∃ C, collapseAux (J ++ B) (.afterD d) = d :: (J ++ C) := by
  induction J with
  | nil =>
    intro B d _
    obtain ⟨C, hC⟩ := collapseAux_afterD_head B d
    exact ⟨C, by simpa using hC⟩
  | cons j J' ih =>
    intro B d hall
    rw [List.all_cons, Bool.and_eq_true] at hall
    obtain ⟨C, hC⟩ := ih B j hall.2
    exact ⟨C, by simp [collapseAux, hall.1, hC]⟩

/-- A nonempty digit block at the head of the remaining input yields a
contiguous digit run at least as long in the output, from any state. -/
theorem collapseAux_run_base (J B : List Char) (st : CState)
    (hJne : J ≠ []) (hJd : J.all isDig = true) :
    ∃ P r Q, collapseAux (J ++ B) st = P ++ r ++ Q ∧
      r.all isDig = true ∧ J.length ≤ r.length := by
  cases J with
  | nil => exact absurd rfl hJne
  | cons j J' =>
    rw [List.all_cons, Bool.and_eq_true] at hJd
    obtain ⟨hj, hJ'⟩ := hJd
    cases st with
    | out =>
      obtain ⟨C, hC⟩ := collapseAux_digits_afterD J' B j hJ'
      refine ⟨[], j :: J', C, ?_, ?_, le_rfl⟩
      · simp [collapseAux, hj, hC]
      · simp [List.all_cons, hj, hJ']
    | afterD d =>
      obtain ⟨C, hC⟩ := collapseAux_digits_afterD J' B j hJ'
      refine ⟨[d], j :: J', C, ?_, ?_, le_rfl⟩
      · simp [collapseAux, hj, hC]
      · simp [List.all_cons, hj, hJ']
    | pend d ws =>
      cases J' with
      | nil =>
        refine ⟨[d], [j], collapseAux B .out, ?_, ?_, ?_⟩
        · simp [collapseAux, hj]
        · simp [List.all_cons, hj]
        · simp
      | cons j2 J'' =>
        rw [List.all_cons, Bool.and_eq_true] at hJ'
        obtain ⟨hj2, hJ''⟩ := hJ'
        obtain ⟨C, hC⟩ := collapseAux_digits_afterD J'' B j2 hJ''
        refine ⟨[d], j :: j2 :: J'', C, ?_, ?_, le_rfl⟩
        · simp [collapseAux, hj, hj2, hC]
        · simp [List.all_cons, hj, hj2, hJ'']

/-- The collapse scanner never shortens a contiguous digit block below
its length, whatever precedes or follows it: induction over the prefix
with the scanner state generalized. -/
theorem collapseAux_run (n : Nat) :
    ∀ (A J B : List Char) (st : CState), A.length ≤ n → J ≠ [] →
    J.all isDig = true →
    ∃ P r Q, collapseAux (A ++ J ++ B) st = P ++ r ++ Q ∧
      r.all isDig = true ∧ J.length ≤ r.length := by
  induction n with
  | zero =>
    intro A J B st hA hJne hJd
    have hA0 : A = [] := List.length_eq_zero.mp (Nat.le_zero.mp hA)
    subst hA0
    simpa using collapseAux_run_base J B st hJne hJd
  | succ m ih =>
    intro A J B st hA hJne hJd
    cases A with
    | nil => simpa using collapseAux_run_base J B st hJne hJd
    | cons a A' =>
      have hA' : A'.length ≤ m := by simp at hA; omega
      cases st with
      | out =>
        cases ha : isDig a with
        | true =>
          obtain ⟨P, r, Q, hPQ, hrd, hlen⟩ := ih A' J B (.afterD a) hA' hJne hJd
          exact ⟨P, r, Q, by rw [List.append_assoc] at hPQ; simp [collapseAux, ha, hPQ], hrd, hlen⟩
        | false =>
          obtain ⟨P, r, Q, hPQ, hrd, hlen⟩ := ih A' J B .out hA' hJne hJd
          exact ⟨a :: P, r, Q, by rw [List.append_assoc] at hPQ; simp [collapseAux, ha, hPQ], hrd, hlen⟩
      | afterD d =>
        cases ha : isDig a with
        | true =>
          obtain ⟨P, r, Q, hPQ, hrd, hlen⟩ := ih A' J B (.afterD a) hA' hJne hJd
          exact ⟨d :: P, r, Q, by rw [List.append_assoc] at hPQ; simp [collapseAux, ha, hPQ], hrd, hlen⟩
        | false =>
          cases hsp : isSpace a with
          | true =>
            obtain ⟨P, r, Q, hPQ, hrd, hlen⟩ := ih A' J B (.pend d [a]) hA' hJne hJd
            exact ⟨P, r, Q, by rw [List.append_assoc] at hPQ; simp [collapseAux, ha, hsp, hPQ], hrd, hlen⟩
          | false =>
            obtain ⟨P, r, Q, hPQ, hrd, hlen⟩ := ih A' J B .out hA' hJne hJd
            exact ⟨d :: a :: P, r, Q, by rw [List.append_assoc] at hPQ; simp [collapseAux, ha, hsp, hPQ], hrd, hlen⟩
      | pend d ws =>
        cases ha : isDig a with
        | true =>
          obtain ⟨P, r, Q, hPQ, hrd, hlen⟩ := ih A' J B .out hA' hJne hJd
          exact ⟨d :: a :: P, r, Q, by rw [List.append_assoc] at hPQ; simp [collapseAux, ha, hPQ], hrd, hlen⟩
        | false =>
          cases hsp : isSpace a with
          | true =>
            obtain ⟨P, r, Q, hPQ, hrd, hlen⟩ := ih A' J B (.pend d (a :: ws)) hA' hJne hJd
            exact ⟨P, r, Q, by rw [List.append_assoc] at hPQ; simp [collapseAux, ha, hsp, hPQ], hrd, hlen⟩
          | false =>
            obtain ⟨P, r, Q, hPQ, hrd, hlen⟩ := ih A' J B .out hA' hJne hJd
            exact ⟨d :: ws.reverse ++ a :: P, r, Q,
              by rw [List.append_assoc] at hPQ; simp [collapseAux, ha, hsp, hPQ], hrd, hlen⟩

/-- Collapsing preserves a contiguous digit block up to extension. -/
theorem collapse_run (A J B : List Char) (hJne : J ≠ [])
    (hJd : J.all isDig = true) :
    ∃ P r Q, collapse (A ++ J ++ B) = P ++ r ++ Q ∧
      r.all isDig = true ∧ J.length ≤ r.length :=
  collapseAux_run A.length A J B .out le_rfl hJne hJd

/-- A decomposition with a digit block of length at least n witnesses
hasRunGeB n. -/
theorem hasRunGeB_of_parts (l P r Q : List Char) (n : Nat)
    (hl : l = P ++ r ++ Q) (hr : r.all isDig = true) (hn : n ≤ r.length) :
    hasRunGeB n l = true := by
  subst hl
  unfold hasRunGeB
  rw [List.any_eq_true]
  refine ⟨P.length, List.mem_range.mpr (by simp only [List.length_append]; omega), ?_⟩
  rw [Bool.and_eq_true]
  constructor
  · exact decide_eq_true (by simp only [List.length_append]; omega)
  · rw [List.append_assoc, List.drop_left, List.take_append_eq_append_take]
    rw [List.all_append, Bool.and_eq_true]
    constructor
    · rw [List.all_eq_true]
      intro x hx
      rw [List.all_eq_true] at hr
      exact hr x (List.mem_of_mem_take hx)
    · rw [show n - r.length = 0 from by omega]
      rfl

/-- Tag stripping distributes over an append whose left part contains no
opening angle bracket: such a prefix passes through unchanged. -/
theorem stripTags_append_no_open (t h : List Char) :
    (∀ c ∈ t, c ≠ '<') → stripTags (t ++ h) = t ++ stripTags h := by
  induction t with
  | nil => intro _; simp
  | cons c t' ih =>
    intro hno
    have hc : c ≠ '<' := hno c (by simp)
    have ih' := ih (fun x hx => hno x (by simp [hx]))
    simp only [stripTags] at ih' ⊢
    simp only [List.cons_append]
    rw [show stripAux (c :: (t' ++ h)) none = c :: stripAux (t' ++ h) none from by
      simp [stripAux, hc]]
    rw [ih']

/-- When a text with no opening angle bracket ends in digits and the
stripped html starts in digits, the searched string — the concatenation
after tag stripping and gap collapsing — contains a contiguous digit run
at least as long as the two junction runs together. -/
theorem merged_run_core (t hb : List Char)
    (hno : ∀ c ∈ t, c ≠ '<')
    (hends : t.reverse.takeWhile isDig ≠ [])
    (hstarts : (stripTags hb).takeWhile isDig ≠ []) :
    hasRunGeB ((t.reverse.takeWhile isDig).length +
        ((stripTags hb).takeWhile isDig).length)
      (collapse (stripTags (t ++ hb))) = true := by
  have hsplit_t :
      t = (t.reverse.dropWhile isDig).reverse ++ (t.reverse.takeWhile isDig).reverse := by
    rw [← List.reverse_append, List.takeWhile_append_dropWhile, List.reverse_reverse]
  have hsplit_s :
      stripTags hb = (stripTags hb).takeWhile isDig ++ (stripTags hb).dropWhile isDig :=
    (List.takeWhile_append_dropWhile _ _).symm
  have hstrip : stripTags (t ++ hb) = t ++ stripTags hb := stripTags_append_no_open t hb hno
  have hJd : ((t.reverse.takeWhile isDig).reverse ++
      (stripTags hb).takeWhile isDig).all isDig = true := by
    rw [List.all_append, Bool.and_eq_true]
    constructor
    · rw [List.all_reverse, List.all_eq_true]
      intro a ha
      exact List.mem_takeWhile_imp ha
    · rw [List.all_eq_true]
      intro a ha
      exact List.mem_takeWhile_imp ha
  have hJne : (t.reverse.takeWhile isDig).reverse ++
      (stripTags hb).takeWhile isDig ≠ [] := by
    intro hcontra
    rcases List.append_eq_nil.mp hcontra with ⟨h1, _⟩
    exact hends (by rwa [List.reverse_eq_nil_iff] at h1)
  have hX : t ++ stripTags hb =
      (t.reverse.dropWhile isDig).reverse ++
        ((t.reverse.takeWhile isDig).reverse ++ (stripTags hb).takeWhile isDig) ++
        (stripTags hb).dropWhile isDig := by
    conv_lhs => rw [hsplit_t, hsplit_s]
    simp [List.append_assoc]
  obtain ⟨P, r, Q, hPQ, hrd, hlen⟩ := collapse_run
    ((t.reverse.dropWhile isDig).reverse)
    ((t.reverse.takeWhile isDig).reverse ++ (stripTags hb).takeWhile isDig)
    ((stripTags hb).dropWhile isDig) hJne hJd
  apply hasRunGeB_of_parts _ P r Q _ ?_ hrd ?_
  · rw [hstrip, hX]
    exact hPQ
  · rw [List.length_append, List.length_reverse] at hlen
    exact hlen

/-- Claim C10 refuted at a concrete input: the text is nonempty and ends
in a digit, the html — after joining and stripping, which leaves it
unchanged — starts with a digit, and the two junction runs have three
digits each; yet the searched string contains no run of six digits at
all, because the unterminated opening angle bracket of the text combines
with the closing angle bracket of the html into one tag that swallows
all the digits during stripping. -/
theorem claim_C10_counterexample :
    ("<a 123".data.reverse.takeWhile isDig).length = 3 ∧
    ((stripTags (joinHtml (HtmlField.str "456> x".data))).takeWhile isDig).length = 3 ∧
    hasRunGeB 6
      (collapse (stripTags (normalize_body (some "<a 123".data)
        (HtmlField.str "456> x".data)))) = false := by
  refine ⟨rfl, rfl, by decide⟩

/-- Claim C10 (amended): for every message whose text is free of opening
angle brackets and ends in one or more digits, and whose html after
joining and tag stripping starts with one or more digits, body
normalization concatenates text and html with no separator, and the
searched string — the normalized body after tag stripping and gap
collapsing — contains one contiguous digit run at least as long as the
two junction runs together. -/
theorem claim_C10_amended (t : List Char) (html : HtmlField)
    (hno : ∀ c ∈ t, c ≠ '<')
    (hends : t.reverse.takeWhile isDig ≠ [])
    (hstarts : (stripTags (joinHtml html)).takeWhile isDig ≠ []) :
    normalize_body (some t) html = t ++ joinHtml html ∧
    hasRunGeB ((t.reverse.takeWhile isDig).length +
        ((stripTags (joinHtml html)).takeWhile isDig).length)
      (collapse (stripTags (normalize_body (some t) html))) = true := by
  constructor
  · rfl
  · have hcore := merged_run_core t (joinHtml html) hno hends hstarts
    simpa [normalize_body] using hcore

/-- Witness for the amended claim C10: a three-digit text suffix merges
with a three-digit html prefix into a six-digit run. -/
theorem claim_C10_witness :
    normalize_body (some "abc123".data) (HtmlField.str "456</p>".data) =
      "abc123".data ++ joinHtml (HtmlField.str "456</p>".data) ∧
    hasRunGeB (("abc123".data.reverse.takeWhile isDig).length +
        ((stripTags (joinHtml (HtmlField.str "456</p>".data))).takeWhile isDig).length)
      (collapse (stripTags (normalize_body (some "abc123".data)
        (HtmlField.str "456</p>".data)))) = true :=
  claim_C10_amended "abc123".data (HtmlField.str "456</p>".data)
    (by decide) (by decide) (by decide)
